import Mathlib

/-!
Shallow embedding of the CopyNet sequence-to-sequence model
(`src/modules/models/copynet.py`) and of the decoding script
(`src/decode_test.py`), with theorems about the per-timestep joint
generation/copy log-likelihood, the training loop, state initialization
and the error paths.

Modelling conventions:

* A float tensor of shape `(n,)` is a function `Fin n → ℝ`; a batch
  dimension becomes an outer index `Fin B`.  Exact real arithmetic stands
  in for IEEE floats.
* The only non-finite float the model can produce is `-inf`, from
  `Tensor.log` applied to `0`; `Tensor.exp` maps `-inf` back to `0`.  The
  value of the outer `log` in `step_log_likelihood` is therefore modelled
  in `EReal` (`flog`, with `flog 0 = bot`), and the composite
  `(x.log() - n).exp()` with finite `n` is modelled by a branch on `x = 0`
  (see `selectiveWeightsOf`).  This matches IEEE float semantics on the
  nonnegative arguments and positive normalizers that the program feeds
  into these operations.
* External framework modules (the source embedder, the encoder, the
  attention module, the LSTM cell and the linear layers) are opaque
  parameters gathered into structures; everything the repository writes
  out itself (`tanh`, slicing, masking, the joint softmax normalization,
  the training loop) is translated line by line.
-/

namespace CopyNetModel

/-! ### Basic tensor operations -/

/-- Float vectors of length `n` (a one-dimensional tensor). -/
abbrev Vec (n : ℕ) : Type := Fin n → ℝ

/-- IEEE `Tensor.log` on nonnegative floats, valued in `EReal`:
`log 0 = -inf`.  (`Real.log` alone would return the junk value `0` at `0`,
which does not model the float operation.  The program never takes the
log of a negative number; this definition is only applied to nonnegative
arguments.) -/
noncomputable def flog (x : ℝ) : EReal :=
  if x = 0 then (⊥ : EReal) else ((Real.log x : ℝ) : EReal)

/-- The `.float()` view of a boolean mask entry. -/
def boolR (b : Bool) : ℝ := if b then 1 else 0

/-- The slice `v[1:-1]` of a vector indexed by padded source positions:
entry `j` of the result is entry `j + 1` of `v`.  (`Fin (L - 2)` is empty
when `L < 3`, matching an empty slice.) -/
def trimE {L : ℕ} {α : Type} (v : Fin L → α) : Fin (L - 2) → α :=
  fun j => v ⟨j.val + 1, by have h2 := j.isLt; omega⟩

/-- `allennlp.nn.util.weighted_sum`: the attention-weighted sum
`fun k => sum over j of w j * M j k` of the rows of `M`. -/
def weightedSum {n H : ℕ} (M : Fin n → Vec H) (w : Fin n → ℝ) : Vec H :=
  fun k => ∑ j, w j * M j k

/-- The row maximum of `torch.cat((generation_scores, copy_scores), dim=-1)`
(line 266 of `copynet.py`).  The target vocabulary is nonempty, so the
concatenation is nonempty. -/
noncomputable def maxCat {V S : ℕ} [NeZero V] (gen : Vec V) (cs : Vec S) : ℝ :=
  Finset.univ.sup'
    (Finset.univ_nonempty_iff.mpr ⟨Sum.inl ⟨0, Nat.pos_of_ne_zero (NeZero.ne V)⟩⟩)
    (Sum.elim gen cs)

/-! ### `_get_ll_contrib` (copynet.py lines 241 to 303), one batch row

All tensor operations in `_get_ll_contrib` act rowwise, so the embedding
is per batch row; `c` stands for the subtracted constant, which the source
fixes to the row maximum `max_score`.  Each definition below is one line
of the source. -/

/-- Line 268 to 269: `stable_gen_scores.exp()` where
`stable_gen_scores = generation_scores - max_score.unsqueeze(-1)`. -/
noncomputable def stableGenExpScores {V : ℕ} (gen : Vec V) (c : ℝ) : Vec V :=
  fun i => Real.exp (gen i - c)

/-- Line 272 to 273: `stable_copy_scores.exp() * copy_mask`. -/
noncomputable def stableCopyExpScores {S : ℕ} (cs : Vec S) (mask : Vec S) (c : ℝ) : Vec S :=
  fun j => Real.exp (cs j - c) * mask j

/-- Line 279: `((target_tokens != self._oov_index) | (source_indices.sum(-1) == 0)).float()`. -/
noncomputable def genMaskOf (oov : ℕ) {V S : ℕ} (t : Fin V) (src : Fin S → ℕ) : ℝ :=
  if t.val ≠ oov ∨ (∑ j, src j) = 0 then 1 else 0

/-- Line 285: `stable_copy_exp_scores * source_indices.float()`. -/
noncomputable def filteredCopyExp {S : ℕ} (cs mask : Vec S) (src : Fin S → ℕ) (c : ℝ) : Vec S :=
  fun j => stableCopyExpScores cs mask c j * (src j : ℝ)

/-- Line 293, the argument of the log:
`stable_gen_exp_scores.sum(-1) + stable_copy_exp_scores.sum(-1)`. -/
noncomputable def denomSum {V S : ℕ} (gen : Vec V) (cs mask : Vec S) (c : ℝ) : ℝ :=
  (∑ i, stableGenExpScores gen c i) + ∑ j, stableCopyExpScores cs mask c j

/-- Line 293: `normalization = (...).log()`.  The argument is strictly
positive whenever the mask is 0/1 valued (the generation part is a
nonempty sum of exponentials), so the float value is finite and a plain
`Real.log` is faithful there. -/
noncomputable def normalizationOf {V S : ℕ} (gen : Vec V) (cs mask : Vec S) (c : ℝ) : ℝ :=
  Real.log (denomSum gen cs mask c)

/-- Lines 296 to 297:
`(stable_copy_exp_scores_filtered.log() - normalization.expand(...)).exp()`.
When an entry of the filtered scores is `0`, the float computation gives
`exp(-inf - normalization) = 0`; the branch models exactly that. -/
noncomputable def selectiveWeightsOf {V S : ℕ} (gen : Vec V) (cs mask : Vec S)
    (src : Fin S → ℕ) (c : ℝ) : Vec S :=
  fun j =>
    if filteredCopyExp cs mask src c j = 0 then 0
    else Real.exp (Real.log (filteredCopyExp cs mask src c j) - normalizationOf gen cs mask c)

/-- Line 300: `(stable_gen_exp + stable_copy_exp).log() - normalization`,
with `stable_gen_exp` from line 282 (the gathered, gen-masked entry) and
`stable_copy_exp` from line 288.  The outer log can genuinely be `-inf`
(when the gold token receives no mass), so the value lives in `EReal`. -/
noncomputable def stepLogLikelihoodOf (oov : ℕ) {V S : ℕ} (gen : Vec V) (cs : Vec S)
    (t : Fin V) (src : Fin S → ℕ) (mask : Vec S) (c : ℝ) : EReal :=
  flog (stableGenExpScores gen c t * genMaskOf oov t src + ∑ j, filteredCopyExp cs mask src c j)
    - ((normalizationOf gen cs mask c : ℝ) : EReal)

/-- `_get_ll_contrib` with the subtracted constant `max_score` generalized
to an arbitrary constant `c` (the source fixes `c` to the row maximum of
the concatenated scores; see `getLLContrib`).  Returns
`(step_log_likelihood, selective_weights)` as the source does. -/
noncomputable def getLLContribShift (oov : ℕ) {V S : ℕ} (gen : Vec V) (cs : Vec S)
    (t : Fin V) (src : Fin S → ℕ) (mask : Vec S) (c : ℝ) : EReal × Vec S :=
  (stepLogLikelihoodOf oov gen cs t src mask c, selectiveWeightsOf gen cs mask src c)

/-- `_get_ll_contrib` (copynet.py lines 241 to 303), one batch row:
the subtracted constant is `max_score` (line 266). -/
noncomputable def getLLContrib (oov : ℕ) {V S : ℕ} [NeZero V] (gen : Vec V) (cs : Vec S)
    (t : Fin V) (src : Fin S → ℕ) (mask : Vec S) : EReal × Vec S :=
  getLLContribShift oov gen cs t src mask (maxCat gen cs)

/-! ### Specification-side quantities for the joint softmax

These three definitions follow the words of the specification (claim C1):
the generation contribution of the gold target token, the copy
contribution of its matching unmasked source positions, and the shared
normalizer `Z`, all without any subtracted stabilizing constant. -/

/-- Specification side: the unnormalized generation contribution,
`exp(generation score of the gold token)` when the gold token is counted
on the generation side, `0` otherwise. -/
noncomputable def specGenContrib (oov : ℕ) {V S : ℕ} (gen : Vec V) (t : Fin V)
    (src : Fin S → ℕ) : ℝ :=
  if t.val ≠ oov ∨ (∑ j, src j) = 0 then Real.exp (gen t) else 0

/-- Specification side: the unnormalized copy contribution, the sum of
`exp(copy score)` over the unmasked source positions matching the gold
token (weighted by the source-indices multiplicities). -/
noncomputable def specCopyContrib {S : ℕ} (cs : Vec S) (src : Fin S → ℕ) (mask : Vec S) : ℝ :=
  ∑ j, Real.exp (cs j) * mask j * (src j : ℝ)

/-- Specification side: the shared softmax normalizer `Z`, the sum of
`exp(generation score)` over the whole target vocabulary plus the sum of
`exp(copy score)` over the source positions whose copy-mask entry is 1. -/
noncomputable def specZ {V S : ℕ} (gen : Vec V) (cs : Vec S) (mask : Vec S) : ℝ :=
  (∑ i, Real.exp (gen i)) +
    ∑ j ∈ Finset.univ.filter (fun j => mask j = 1), Real.exp (cs j)

/-! ### The decoder state and the framework modules

The state dict built by `_init_encoded_state` (copynet.py lines 177 to
182) holds exactly four entries; it becomes a structure with exactly those
four fields.  `source_mask` is the 0/1 mask returned by
`util.get_text_field_mask`, modelled as boolean. -/

/-- The mutable state dict threaded through decoding: exactly the entries
`source_mask`, `encoder_outputs`, `decoder_hidden`, `decoder_context`. -/
structure DecoderState (B L H : ℕ) where
  source_mask : Fin B → Fin L → Bool
  encoder_outputs : Fin B → Fin L → Vec H
  decoder_hidden : Fin B → Vec H
  decoder_context : Fin B → Vec H

/-- The framework modules used by the decoder side of `CopyNet`, as opaque
parameters: the target embedder (applied to a token id), the attention
module, the input projection layer (a linear map of the concatenation of
its four blocks, kept opaque), the LSTM cell, the generation output layer
and the linear part of the copying layer.  Encoder and decoder output
dimensions coincide (`self.decoder_output_dim = self.encoder_output_dim`),
both are `H`. -/
structure DecoderModules (V H Ed : ℕ) where
  target_embedder : ℕ → Vec Ed
  attention : (L : ℕ) → Vec H → (Fin L → Vec H) → (Fin L → ℝ) → Fin L → ℝ
  input_projection_layer : Vec H → Vec Ed → Vec H → Vec H → Vec H
  decoder_cell : Vec H → Vec H × Vec H → Vec H × Vec H
  output_generation_layer : Vec H → Vec V
  output_copying_layer : Vec H → Vec H

/-- `_decoder_step` (copynet.py lines 191 to 221): embed the previous
prediction, take the attentive read over all encoder outputs, take the
selective read over the trimmed encoder outputs `encoder_outputs[:, 1:-1]`
weighted by `selective_weights`, project the concatenation, and step the
LSTM cell; only `decoder_hidden` and `decoder_context` change. -/
def decoderStep {B L H Ed V : ℕ} (mods : DecoderModules V H Ed) (st : DecoderState B L H)
    (last_predictions : Fin B → ℕ) (selective_weights : Fin B → Fin (L - 2) → ℝ) :
    DecoderState B L H :=
  let encoder_outputs_mask : Fin B → Fin L → ℝ := fun b i => boolR (st.source_mask b i)
  let embedded_input : Fin B → Vec Ed := fun b => mods.target_embedder (last_predictions b)
  let attentive_weights : Fin B → Fin L → ℝ := fun b =>
    mods.attention L (st.decoder_hidden b) (st.encoder_outputs b) (encoder_outputs_mask b)
  let attentive_read : Fin B → Vec H := fun b =>
    weightedSum (st.encoder_outputs b) (attentive_weights b)
  let selective_read : Fin B → Vec H := fun b =>
    weightedSum (trimE (st.encoder_outputs b)) (selective_weights b)
  let projected_decoder_input : Fin B → Vec H := fun b =>
    mods.input_projection_layer (st.decoder_hidden b) (embedded_input b)
      (attentive_read b) (selective_read b)
  let hc : Fin B → Vec H × Vec H := fun b =>
    mods.decoder_cell (projected_decoder_input b) (st.decoder_hidden b, st.decoder_context b)
  { st with decoder_hidden := fun b => (hc b).1, decoder_context := fun b => (hc b).2 }

/-- `_get_generation_scores` (copynet.py lines 223 to 224). -/
def getGenerationScores {B L H Ed V : ℕ} (mods : DecoderModules V H Ed)
    (st : DecoderState B L H) (b : Fin B) : Vec V :=
  mods.output_generation_layer (st.decoder_hidden b)

/-- `_get_copy_scores` (copynet.py lines 226 to 239): apply the copying
layer to each trimmed encoder output, take `tanh`, and dot with the
decoder hidden state (`bmm` with `decoder_hidden.unsqueeze(-1)`). -/
noncomputable def getCopyScores {B L H Ed V : ℕ} (mods : DecoderModules V H Ed)
    (st : DecoderState B L H) (b : Fin B) : Vec (L - 2) :=
  fun j => ∑ k, Real.tanh (mods.output_copying_layer (trimE (st.encoder_outputs b) j) k)
    * st.decoder_hidden b k

/-- The framework modules used by the encoder side: the source embedder
and the text-field mask extractor (both applied to the opaque source
token dict of type `Src`), the encoder, its bidirectionality flag, and
`util.get_final_encoder_states`. -/
structure EncoderModules (Src : Type) (B L Ein H : ℕ) where
  source_embedder : Src → Fin B → Fin L → Vec Ein
  get_text_field_mask : Src → Fin B → Fin L → Bool
  encoder : (Fin B → Fin L → Vec Ein) → (Fin B → Fin L → Bool) → Fin B → Fin L → Vec H
  is_bidirectional : Bool
  get_final_encoder_states :
    (Fin B → Fin L → Vec H) → (Fin B → Fin L → Bool) → Bool → Fin B → Vec H

/-- `_init_encoded_state` (copynet.py lines 149 to 184): embed the source,
compute the source mask, run the encoder, select the final encoder output
(via the mask and the bidirectionality of the encoder), and return the
four-entry state with `decoder_hidden` the final encoder output and
`decoder_context` all zeros of shape `(batch_size, decoder_output_dim)`. -/
def initEncodedState {Src : Type} {B L Ein H : ℕ} (em : EncoderModules Src B L Ein H)
    (source_tokens : Src) : DecoderState B L H :=
  let embedded_input := em.source_embedder source_tokens
  let source_mask := em.get_text_field_mask source_tokens
  let encoder_outputs := em.encoder embedded_input source_mask
  let final_encoder_output :=
    em.get_final_encoder_states encoder_outputs source_mask em.is_bidirectional
  { source_mask := source_mask
    encoder_outputs := encoder_outputs
    decoder_hidden := final_encoder_output
    decoder_context := fun _ _ => 0 }

/-! ### `_forward_train`, `forward`, `decode` (copynet.py lines 113 to 147
and 305 to 383) -/

/-- The vocabulary indices computed in the constructor (copynet.py lines
70 to 75): start, end, copy and OOV token ids of the target namespace. -/
structure VocabIndices where
  start_index : ℕ
  end_index : ℕ
  copy_index : ℕ
  oov_index : ℕ

/-- One iteration of the decoding loop of `_forward_train` (copynet.py
lines 338 to 376) at timestep `t`: pick the input token (line 339,
replaced by the copy token when the previous source-indices row shows the
token was copied, lines 345 to 350), step the decoder, score generation
and copying, and get the log-likelihood contribution for the gold token at
position `t + 1`.  Returns the new state, the new selective weights and
the step log-likelihoods. -/
noncomputable def trainBody {B L H Ed V : ℕ} [NeZero V] (mods : DecoderModules V H Ed)
    (vi : VocabIndices) (numSteps : ℕ) (tt : Fin B → ℕ → Fin V)
    (si : Fin B → ℕ → Fin (L - 2) → ℕ) (copy_mask : Fin B → Fin (L - 2) → ℝ) (t : ℕ)
    (st : DecoderState B L H) (selWeights : Fin B → Fin (L - 2) → ℝ) :
    DecoderState B L H × (Fin B → Fin (L - 2) → ℝ) × (Fin B → EReal) :=
  let input_choices : Fin B → ℕ := fun b =>
    if t < numSteps - 1 then
      if 0 < ∑ j, si b t j then vi.copy_index else (tt b t).val
    else (tt b t).val
  let st1 := decoderStep mods st input_choices selWeights
  let contrib : Fin B → EReal × Vec (L - 2) := fun b =>
    getLLContrib vi.oov_index (getGenerationScores mods st1 b) (getCopyScores mods st1 b)
      (tt b (t + 1)) (si b (t + 1)) (copy_mask b)
  (st1, fun b => (contrib b).2, fun b => (contrib b).1)

/-- The decoding loop of `_forward_train`: run `trainBody` for the given
number of remaining steps, threading state and selective weights and
accumulating the log-likelihood (line 376). -/
noncomputable def trainLoop {B L H Ed V : ℕ} [NeZero V] (mods : DecoderModules V H Ed)
    (vi : VocabIndices) (numSteps : ℕ) (tt : Fin B → ℕ → Fin V)
    (si : Fin B → ℕ → Fin (L - 2) → ℕ) (copy_mask : Fin B → Fin (L - 2) → ℝ) :
    ℕ → ℕ → DecoderState B L H → (Fin B → Fin (L - 2) → ℝ) → (Fin B → EReal) →
      Fin B → EReal
  | _, 0, _, _, ll => ll
  | t, k + 1, st, sw, ll =>
    let r := trainBody mods vi numSteps tt si copy_mask t st sw
    trainLoop mods vi numSteps tt si copy_mask (t + 1) k r.1 r.2.1 (fun b => ll b + r.2.2 b)

/-- The dictionary returned by `_forward_train`: exactly the entry
`loss`. -/
structure TrainOutput where
  loss : EReal

/-- `_forward_train` (copynet.py lines 305 to 380) with target sequence
length `T`: `num_decoding_steps = T - 1` (line 316, the final target
position is never processed as a decoder input), the copy mask is
`source_mask[:, 1:-1].float()` (line 326), the selective weights start at
zero (line 332), the log-likelihood accumulator starts at zero (line 335),
and `loss = - log_likelihood.sum() / batch_size` (line 378).  (Line 319
initializes `input_choices` with the start index, but the loop overwrites
it at line 339 before any use, so it is dead.) -/
noncomputable def forwardTrain {B L H Ed V : ℕ} [NeZero V] (mods : DecoderModules V H Ed)
    (vi : VocabIndices) (T : ℕ) (tt : Fin B → ℕ → Fin V)
    (si : Fin B → ℕ → Fin (L - 2) → ℕ) (st : DecoderState B L H) : TrainOutput :=
  let numSteps := T - 1
  let copy_mask : Fin B → Fin (L - 2) → ℝ := fun b j => boolR (trimE (st.source_mask b) j)
  let ll := trainLoop mods vi numSteps tt si copy_mask 0 numSteps st
    (fun _ _ => 0) (fun _ => 0)
  ⟨-(∑ b, ll b) / ((B : ℝ) : EReal)⟩

/-- The exception raised by the unimplemented paths. -/
inductive PyError : Type where
  | notImplementedError : PyError

/-- `_forward_predict` (copynet.py lines 382 to 383): always raises
`NotImplementedError`. -/
def forwardPredict {B L H : ℕ} (_st : DecoderState B L H) : Except PyError TrainOutput :=
  Except.error PyError.notImplementedError

/-- `forward` (copynet.py lines 113 to 143): initialize the encoded state,
then run the training computation when `target_tokens` is present,
otherwise the (unimplemented) prediction path.  A present `target_tokens`
carries the token tensor together with its sequence length `T`. -/
noncomputable def forward {Src : Type} {B L Ein H Ed V : ℕ} [NeZero V]
    (em : EncoderModules Src B L Ein H) (mods : DecoderModules V H Ed) (vi : VocabIndices)
    (source_tokens : Src) (target_tokens : Option (ℕ × (Fin B → ℕ → Fin V)))
    (source_indices : Fin B → ℕ → Fin (L - 2) → ℕ) : Except PyError TrainOutput :=
  let st := initEncodedState em source_tokens
  match target_tokens with
  | some p => Except.ok (forwardTrain mods vi p.1 p.2 source_indices st)
  | none => forwardPredict st

/-- `decode` (copynet.py lines 145 to 147): always raises
`NotImplementedError`. -/
def decode (_output_dict : TrainOutput) : Except PyError TrainOutput :=
  Except.error PyError.notImplementedError

/-! ### The state trajectory of the decoding loop (specification side) -/

/-- The state and selective weights entering timestep `t` of the decoding
loop of `_forward_train`: at `t = 0` the initial state and the all-zero
selective weights, afterwards the outputs of the previous `trainBody`. -/
noncomputable def trainStatesAux {B L H Ed V : ℕ} [NeZero V] (mods : DecoderModules V H Ed)
    (vi : VocabIndices) (numSteps : ℕ) (tt : Fin B → ℕ → Fin V)
    (si : Fin B → ℕ → Fin (L - 2) → ℕ) (copy_mask : Fin B → Fin (L - 2) → ℝ)
    (st0 : DecoderState B L H) :
    ℕ → DecoderState B L H × (Fin B → Fin (L - 2) → ℝ)
  | 0 => (st0, fun _ _ => 0)
  | t + 1 =>
    let p := trainStatesAux mods vi numSteps tt si copy_mask st0 t
    let r := trainBody mods vi numSteps tt si copy_mask t p.1 p.2
    (r.1, r.2.1)

/-- The `step_log_likelihood` produced at timestep `t` of the decoding
loop of `_forward_train`. -/
noncomputable def stepLLAt {B L H Ed V : ℕ} [NeZero V] (mods : DecoderModules V H Ed)
    (vi : VocabIndices) (numSteps : ℕ) (tt : Fin B → ℕ → Fin V)
    (si : Fin B → ℕ → Fin (L - 2) → ℕ) (copy_mask : Fin B → Fin (L - 2) → ℝ)
    (st0 : DecoderState B L H) (t : ℕ) : Fin B → EReal :=
  let p := trainStatesAux mods vi numSteps tt si copy_mask st0 t
  (trainBody mods vi numSteps tt si copy_mask t p.1 p.2).2.2

/-! ### Mass accounting over padded source positions (specification side) -/

/-- Specification side: the unnormalized mass that the copy side of the
shared softmax attributes to the PADDED source position `p`.  Composed
from the source: `_get_copy_scores` scores only `encoder_outputs[:, 1:-1]`
(trimmed index `j` sits at padded position `j + 1`) and `_forward_train`
masks with `copy_mask = source_mask[:, 1:-1].float()`, so padded position
`p` carries the masked copy exponential of trimmed index `p - 1` when
`1 ≤ p ≤ L - 2`, and nothing otherwise. -/
noncomputable def copyMassAt {L : ℕ} (cs : Vec (L - 2)) (sourceMask : Fin L → Bool)
    (c : ℝ) (p : Fin L) : ℝ :=
  ∑ j : Fin (L - 2), if p.val = j.val + 1
    then stableCopyExpScores cs (fun j2 => boolR (trimE sourceMask j2)) c j else 0

/-- Modelled from the spec: `util.get_text_field_mask` marks exactly the
first `len` positions of a padded instance of true length `len`. -/
def lengthMask (L len : ℕ) : Fin L → Bool := fun i => decide (i.val < len)

/-! ### `decode_test.py` -/

/-- Observable events of the decoding script: loading the model archive
and writing one string to the output file. -/
inductive ScriptEvent : Type where
  | loadArchive : ScriptEvent
  | write : String → ScriptEvent
deriving DecidableEq

/-- True exactly on write events. -/
def ScriptEvent.isWrite : ScriptEvent → Bool
  | ScriptEvent.loadArchive => false
  | ScriptEvent.write _ => true

/-- `line.replace("\n", "")` from `decode_test.py`: drop every newline
character of the line. -/
def stripNewlines (s : String) : String :=
  ⟨s.data.filter (fun ch => ch ≠ '\n')⟩

/-- The string written for one input line (decode_test.py line 26): the
first entry of `predicted_tokens` for the newline-stripped line, joined by
single spaces, plus the trailing newline.  (The indexing `[0]` into the
predictor output is modelled by `headD`; the external predictor returns at
least one token sequence.) -/
def renderPrediction (pred : String → List (List String)) (line : String) : String :=
  String.intercalate (" ") ((pred (stripNewlines line)).headD []) ++ ("\n")

/-- Event trace of the straight-line script `decode_test.py` (lines 15 to
26): one archive load (line 15; the predictor is built from the loaded
archive), then one write per line of the input file, in order. -/
def decodeTestTrace (pred : String → List (List String)) (lines : List String) :
    List ScriptEvent :=
  ScriptEvent.loadArchive
    :: lines.map (fun l => ScriptEvent.write (renderPrediction pred l))

/-! ### Concrete instances used by the witnesses -/

/-- A concrete module bundle used by witnesses. -/
def witnessMods : DecoderModules 1 1 1 where
  target_embedder := fun _ _ => 0
  attention := fun _ _ _ _ _ => 0
  input_projection_layer := fun _ _ _ _ _ => 0
  decoder_cell := fun _ hc => hc
  output_generation_layer := fun _ _ => 0
  output_copying_layer := fun h => h

/-- A concrete decoder state used by witnesses. -/
def witnessState : DecoderState 1 3 1 where
  source_mask := fun _ _ => true
  encoder_outputs := fun _ _ _ => 0
  decoder_hidden := fun _ _ => 0
  decoder_context := fun _ _ => 0

/-- A concrete encoder-module bundle used by witnesses (source token
dicts are modelled by `Unit`). -/
def witnessEncMods : EncoderModules Unit 1 3 1 1 where
  source_embedder := fun _ _ _ _ => 0
  get_text_field_mask := fun _ _ _ => true
  encoder := fun _ _ _ _ _ => 0
  is_bidirectional := false
  get_final_encoder_states := fun _ _ _ _ _ => 0

/-- Concrete vocabulary indices used by witnesses. -/
def witnessVI : VocabIndices where
  start_index := 0
  end_index := 0
  copy_index := 0
  oov_index := 0

/-! ### The shared normalizer and shift invariance -/

/-- The shared normalizer is strictly positive: the generation side alone
sums the exponentials over the nonempty target vocabulary. -/
lemma specZ_pos {V S : ℕ} [NeZero V] (gen : Vec V) (cs : Vec S) (mask : Vec S) :
    0 < specZ gen cs mask := by
  unfold specZ
  have h1 : 0 < ∑ i, Real.exp (gen i) := by
    refine Finset.sum_pos (fun i _ => Real.exp_pos _) ?_
    exact Finset.univ_nonempty_iff.mpr ⟨⟨0, Nat.pos_of_ne_zero (NeZero.ne V)⟩⟩
  have h2 : 0 ≤ ∑ j ∈ Finset.univ.filter (fun j => mask j = 1), Real.exp (cs j) :=
    Finset.sum_nonneg (fun j _ => (Real.exp_pos _).le)
  linarith

/-- Subtracting a constant `c` from every score multiplies the
normalization sum by `exp (-c)`, for every 0/1 valued copy mask. -/
lemma denomSum_shift {V S : ℕ} (gen : Vec V) (cs mask : Vec S)
    (hmask : ∀ j, mask j = 0 ∨ mask j = 1) (c : ℝ) :
    denomSum gen cs mask c = Real.exp (-c) * specZ gen cs mask := by
  unfold denomSum specZ stableGenExpScores stableCopyExpScores
  have h1 : ∀ i : Fin V, Real.exp (gen i - c) = Real.exp (-c) * Real.exp (gen i) := by
    intro i; rw [sub_eq_add_neg, Real.exp_add, mul_comm]
  have h2 : ∀ j : Fin S, Real.exp (cs j - c) * mask j
      = Real.exp (-c) * (if mask j = 1 then Real.exp (cs j) else 0) := by
    intro j
    rcases hmask j with h | h
    · rw [h]; simp
    · rw [h, if_pos rfl, mul_one, sub_eq_add_neg, Real.exp_add, mul_comm]
  rw [Finset.sum_congr rfl (fun i _ => h1 i), Finset.sum_congr rfl (fun j _ => h2 j),
    ← Finset.mul_sum, ← Finset.mul_sum, ← mul_add, Finset.sum_filter]

/-- Subtracting a constant `c` from every score multiplies the numerator of
the step likelihood by `exp (-c)`. -/
lemma numerator_shift (oov : ℕ) {V S : ℕ} (gen : Vec V) (cs : Vec S) (t : Fin V)
    (src : Fin S → ℕ) (mask : Vec S) (c : ℝ) :
    stableGenExpScores gen c t * genMaskOf oov t src
        + (∑ j, filteredCopyExp cs mask src c j)
      = Real.exp (-c) * (specGenContrib oov gen t src + specCopyContrib cs src mask) := by
  unfold stableGenExpScores genMaskOf filteredCopyExp stableCopyExpScores
  unfold specGenContrib specCopyContrib
  rw [mul_add, Finset.mul_sum]
  have h1 : Real.exp (gen t - c) * (if t.val ≠ oov ∨ (∑ j, src j) = 0 then (1 : ℝ) else 0)
      = Real.exp (-c) * (if t.val ≠ oov ∨ (∑ j, src j) = 0 then Real.exp (gen t) else 0) := by
    by_cases h : t.val ≠ oov ∨ (∑ j, src j) = 0
    · rw [if_pos h, if_pos h, mul_one, sub_eq_add_neg, Real.exp_add, mul_comm]
    · rw [if_neg h, if_neg h, mul_zero, mul_zero]
  rw [h1]
  congr 1
  refine Finset.sum_congr rfl (fun j _ => ?_)
  rw [sub_eq_add_neg, Real.exp_add]
  ring

/-- Entrywise form of the filtered copy exponentials. -/
lemma filtered_shift {S : ℕ} (cs mask : Vec S) (src : Fin S → ℕ) (c : ℝ) (j : Fin S) :
    filteredCopyExp cs mask src c j
      = Real.exp (-c) * (Real.exp (cs j) * mask j * (src j : ℝ)) := by
  unfold filteredCopyExp stableCopyExpScores
  rw [sub_eq_add_neg, Real.exp_add]
  ring

/-- The `normalization` value of `_get_ll_contrib` with subtracted constant
`c` is `-c + log Z` for every 0/1 valued copy mask. -/
lemma normalization_shift {V S : ℕ} [NeZero V] (gen : Vec V) (cs mask : Vec S)
    (hmask : ∀ j, mask j = 0 ∨ mask j = 1) (c : ℝ) :
    normalizationOf gen cs mask c = -c + Real.log (specZ gen cs mask) := by
  unfold normalizationOf
  rw [denomSum_shift gen cs mask hmask c,
    Real.log_mul (Real.exp_ne_zero _) (ne_of_gt (specZ_pos gen cs mask)), Real.log_exp]

/-- Canonical form of `step_log_likelihood`: whatever constant is
subtracted for stability, the returned value is
`log (generation contribution + copy contribution) - log Z` in `EReal`. -/
lemma stepLL_canonical (oov : ℕ) {V S : ℕ} [NeZero V] (gen : Vec V) (cs : Vec S)
    (t : Fin V) (src : Fin S → ℕ) (mask : Vec S)
    (hmask : ∀ j, mask j = 0 ∨ mask j = 1) (c : ℝ) :
    stepLogLikelihoodOf oov gen cs t src mask c
      = flog (specGenContrib oov gen t src + specCopyContrib cs src mask)
          - ((Real.log (specZ gen cs mask) : ℝ) : EReal) := by
  unfold stepLogLikelihoodOf
  rw [numerator_shift oov gen cs t src mask c, normalization_shift gen cs mask hmask c]
  by_cases hN : specGenContrib oov gen t src + specCopyContrib cs src mask = 0
  · rw [hN, mul_zero]
    simp [flog, EReal.bot_sub]
  · have hN0 : Real.exp (-c) * (specGenContrib oov gen t src + specCopyContrib cs src mask) ≠ 0 :=
      mul_ne_zero (Real.exp_ne_zero _) hN
    simp only [flog, if_neg hN0, if_neg hN]
    rw [Real.log_mul (Real.exp_ne_zero _) hN, Real.log_exp, ← EReal.coe_sub, ← EReal.coe_sub]
    rw [EReal.coe_eq_coe_iff]
    ring

/-- Canonical form of `selective_weights`: whatever constant is subtracted
for stability, entry `j` is the probability, under the shared softmax, that
source position `j` was the copied origin of the gold token: its masked,
target-filtered copy exponential divided by the shared normalizer. -/
lemma selectiveWeights_canonical {V S : ℕ} [NeZero V] (gen : Vec V) (cs mask : Vec S)
    (src : Fin S → ℕ) (hmask : ∀ j, mask j = 0 ∨ mask j = 1) (c : ℝ) (j : Fin S) :
    selectiveWeightsOf gen cs mask src c j
      = Real.exp (cs j) * mask j * (src j : ℝ) / specZ gen cs mask := by
  unfold selectiveWeightsOf
  simp only [filtered_shift cs mask src c]
  by_cases h : Real.exp (cs j) * mask j * (src j : ℝ) = 0
  · rw [h, mul_zero, if_pos rfl, zero_div]
  · have hmn : 0 ≤ mask j := by
      rcases hmask j with hm | hm
      · rw [hm]
      · rw [hm]; norm_num
    have hnn : 0 ≤ Real.exp (cs j) * mask j * (src j : ℝ) :=
      mul_nonneg (mul_nonneg (Real.exp_pos _).le hmn) (Nat.cast_nonneg _)
    have hpos : 0 < Real.exp (cs j) * mask j * (src j : ℝ) := lt_of_le_of_ne hnn (Ne.symm h)
    rw [if_neg (mul_ne_zero (Real.exp_ne_zero _) h),
      normalization_shift gen cs mask hmask c,
      Real.log_mul (Real.exp_ne_zero _) h, Real.log_exp]
    have harg : (-c + Real.log (Real.exp (cs j) * mask j * (src j : ℝ)))
        - (-c + Real.log (specZ gen cs mask))
        = Real.log (Real.exp (cs j) * mask j * (src j : ℝ)) - Real.log (specZ gen cs mask) := by
      ring
    rw [harg, Real.exp_sub, Real.exp_log hpos, Real.exp_log (specZ_pos gen cs mask)]

/-! ### The decoding loop accumulates the per-timestep contributions -/

/-- The decoding loop accumulates exactly the per-timestep
log-likelihood contributions along its state trajectory. -/
lemma trainLoop_sum {B L H Ed V : ℕ} [NeZero V] (mods : DecoderModules V H Ed)
    (vi : VocabIndices) (numSteps : ℕ) (tt : Fin B → ℕ → Fin V)
    (si : Fin B → ℕ → Fin (L - 2) → ℕ) (copy_mask : Fin B → Fin (L - 2) → ℝ)
    (st0 : DecoderState B L H) :
    ∀ (k t : ℕ) (ll : Fin B → EReal),
      trainLoop mods vi numSteps tt si copy_mask t k
          (trainStatesAux mods vi numSteps tt si copy_mask st0 t).1
          (trainStatesAux mods vi numSteps tt si copy_mask st0 t).2 ll
        = fun b => ll b
            + ∑ i ∈ Finset.range k, stepLLAt mods vi numSteps tt si copy_mask st0 (t + i) b := by
  intro k
  induction k with
  | zero =>
    intro t ll
    funext b
    simp [trainLoop]
  | succ k ih =>
    intro t ll
    have hstep : trainLoop mods vi numSteps tt si copy_mask t (k + 1)
        (trainStatesAux mods vi numSteps tt si copy_mask st0 t).1
        (trainStatesAux mods vi numSteps tt si copy_mask st0 t).2 ll
      = trainLoop mods vi numSteps tt si copy_mask (t + 1) k
          (trainStatesAux mods vi numSteps tt si copy_mask st0 (t + 1)).1
          (trainStatesAux mods vi numSteps tt si copy_mask st0 (t + 1)).2
          (fun b => ll b + stepLLAt mods vi numSteps tt si copy_mask st0 t b) := rfl
    rw [hstep, ih (t + 1) (fun b => ll b + stepLLAt mods vi numSteps tt si copy_mask st0 t b)]
    funext b
    rw [Finset.sum_range_succ']
    have hidx : ∀ i : ℕ, t + 1 + i = t + (i + 1) := fun i => by omega
    simp only [hidx, Nat.add_zero]
    rw [add_assoc, add_comm (stepLLAt mods vi numSteps tt si copy_mask st0 t b)]

/-- The loss returned by `_forward_train` is the negated batch sum of the
per-instance sums of the per-timestep log-likelihood contributions over
the `T - 1` decoding timesteps, divided by the batch size. -/
lemma forwardTrain_loss {B L H Ed V : ℕ} [NeZero V] (mods : DecoderModules V H Ed)
    (vi : VocabIndices) (T : ℕ) (tt : Fin B → ℕ → Fin V)
    (si : Fin B → ℕ → Fin (L - 2) → ℕ) (st0 : DecoderState B L H) :
    forwardTrain mods vi T tt si st0
      = { loss := -(∑ b, ∑ t ∈ Finset.range (T - 1),
            stepLLAt mods vi (T - 1) tt si
              (fun b j => boolR (trimE (st0.source_mask b) j)) st0 t b)
          / ((B : ℝ) : EReal) } := by
  have h : trainLoop mods vi (T - 1) tt si
        (fun b j => boolR (trimE (st0.source_mask b) j)) 0 (T - 1) st0
        (fun _ _ => 0) (fun _ => 0)
      = fun b => (0 : EReal) + ∑ i ∈ Finset.range (T - 1),
          stepLLAt mods vi (T - 1) tt si
            (fun b j => boolR (trimE (st0.source_mask b) j)) st0 (0 + i) b :=
    trainLoop_sum mods vi (T - 1) tt si
      (fun b j => boolR (trimE (st0.source_mask b) j)) st0 (T - 1) 0 (fun _ => 0)
  show TrainOutput.mk
      (-(∑ b, trainLoop mods vi (T - 1) tt si
          (fun b j => boolR (trimE (st0.source_mask b) j)) 0 (T - 1) st0
          (fun _ _ => 0) (fun _ => 0) b) / ((B : ℝ) : EReal)) = _
  rw [h]
  simp only [zero_add, Nat.zero_add]

/-! ### The claims -/

/-- C1: for every batch row of generation scores, copy scores and 0/1 copy
mask, `_get_ll_contrib` normalizes by the one shared denominator
`Z = (sum of exp(generation score) over the whole target vocabulary)
+ (sum of exp(copy score) over the source positions whose copy-mask entry
is 1)`: whenever the gold token receives positive unnormalized mass, the
returned `step_log_likelihood` equals
`log (generation contribution + copy contribution) - log Z`, a single
softmax over the union of the target vocabulary and the unmasked source
positions. -/
theorem C1_shared_softmax_normalizer {V S : ℕ} [NeZero V] (oov : ℕ) (gen : Vec V)
    (cs : Vec S) (t : Fin V) (src : Fin S → ℕ) (mask : Vec S)
    (hmask : ∀ j, mask j = 0 ∨ mask j = 1)
    (hpos : 0 < specGenContrib oov gen t src + specCopyContrib cs src mask) :
    (getLLContrib oov gen cs t src mask).1
      = ((Real.log (specGenContrib oov gen t src + specCopyContrib cs src mask)
          - Real.log (specZ gen cs mask) : ℝ) : EReal) := by
  show stepLogLikelihoodOf oov gen cs t src mask (maxCat gen cs) = _
  rw [stepLL_canonical oov gen cs t src mask hmask (maxCat gen cs)]
  simp only [flog, if_neg (ne_of_gt hpos)]
  rw [← EReal.coe_sub]

/-- Witness for C1 at a concrete instance: one-token vocabulary with OOV
index 1, zero scores, a single matching unmasked source position. -/
theorem C1_shared_softmax_normalizer_witness :
    (∀ j : Fin 1, (fun _ : Fin 1 => (1 : ℝ)) j = 0 ∨ (fun _ : Fin 1 => (1 : ℝ)) j = 1)
    ∧ 0 < specGenContrib 1 (fun _ : Fin 1 => (0 : ℝ)) ⟨0, Nat.one_pos⟩ (fun _ : Fin 1 => 1)
        + specCopyContrib (fun _ : Fin 1 => (0 : ℝ)) (fun _ => 1) (fun _ : Fin 1 => (1 : ℝ))
    ∧ (getLLContrib 1 (fun _ : Fin 1 => (0 : ℝ)) (fun _ : Fin 1 => (0 : ℝ)) ⟨0, Nat.one_pos⟩
          (fun _ => 1) (fun _ : Fin 1 => (1 : ℝ))).1
      = ((Real.log (specGenContrib 1 (fun _ : Fin 1 => (0 : ℝ)) ⟨0, Nat.one_pos⟩ (fun _ : Fin 1 => 1)
            + specCopyContrib (fun _ : Fin 1 => (0 : ℝ)) (fun _ => 1) (fun _ : Fin 1 => (1 : ℝ)))
          - Real.log (specZ (fun _ : Fin 1 => (0 : ℝ)) (fun _ : Fin 1 => (0 : ℝ))
            (fun _ : Fin 1 => (1 : ℝ))) : ℝ) : EReal) := by
  have h1 : ∀ j : Fin 1, (fun _ : Fin 1 => (1 : ℝ)) j = 0 ∨ (fun _ : Fin 1 => (1 : ℝ)) j = 1 :=
    fun _ => Or.inr rfl
  have h2 : 0 < specGenContrib 1 (fun _ : Fin 1 => (0 : ℝ)) ⟨0, Nat.one_pos⟩ (fun _ : Fin 1 => 1)
      + specCopyContrib (fun _ : Fin 1 => (0 : ℝ)) (fun _ => 1) (fun _ : Fin 1 => (1 : ℝ)) := by
    simp [specGenContrib, specCopyContrib]
  exact ⟨h1, h2, C1_shared_softmax_normalizer 1 _ _ _ _ _ h1 h2⟩

/-- C2: the max subtraction inside `_get_ll_contrib` is semantically inert:
in exact arithmetic, for every input (with its 0/1 copy mask) and every
constant `c`, running the computation with `c` in place of `max_score`
returns the same `step_log_likelihood` and the same `selective_weights` as
the actual code; in particular the subtraction (or replacing it by zero)
only serves numerical stability and does not change the joint
log-likelihood. -/
theorem C2_max_subtraction_inert {V S : ℕ} [NeZero V] (oov : ℕ) (gen : Vec V)
    (cs : Vec S) (t : Fin V) (src : Fin S → ℕ) (mask : Vec S)
    (hmask : ∀ j, mask j = 0 ∨ mask j = 1) (c : ℝ) :
    getLLContribShift oov gen cs t src mask c = getLLContrib oov gen cs t src mask := by
  have key : ∀ d : ℝ, getLLContribShift oov gen cs t src mask d
      = (flog (specGenContrib oov gen t src + specCopyContrib cs src mask)
            - ((Real.log (specZ gen cs mask) : ℝ) : EReal),
         fun j => Real.exp (cs j) * mask j * (src j : ℝ) / specZ gen cs mask) := by
    intro d
    refine Prod.ext ?_ ?_
    · exact stepLL_canonical oov gen cs t src mask hmask d
    · exact funext (fun j => selectiveWeights_canonical gen cs mask src hmask d j)
  show _ = getLLContribShift oov gen cs t src mask (maxCat gen cs)
  rw [key c, key (maxCat gen cs)]

/-- Witness for C2 at a concrete instance: the constant `0` in place of the
row maximum gives the same pair. -/
theorem C2_max_subtraction_inert_witness :
    (∀ j : Fin 1, (fun _ : Fin 1 => (1 : ℝ)) j = 0 ∨ (fun _ : Fin 1 => (1 : ℝ)) j = 1)
    ∧ getLLContribShift 1 (fun _ : Fin 1 => (2 : ℝ)) (fun _ : Fin 1 => (3 : ℝ)) ⟨0, Nat.one_pos⟩
        (fun _ => 1) (fun _ : Fin 1 => (1 : ℝ)) 0
      = getLLContrib 1 (fun _ : Fin 1 => (2 : ℝ)) (fun _ : Fin 1 => (3 : ℝ)) ⟨0, Nat.one_pos⟩
        (fun _ => 1) (fun _ : Fin 1 => (1 : ℝ)) := by
  have h1 : ∀ j : Fin 1, (fun _ : Fin 1 => (1 : ℝ)) j = 0 ∨ (fun _ : Fin 1 => (1 : ℝ)) j = 1 :=
    fun _ => Or.inr rfl
  exact ⟨h1, C2_max_subtraction_inert 1 _ _ _ _ _ h1 0⟩

/-- C3: calling `forward` with `target_tokens` present runs the training
computation and returns the dictionary whose `loss` entry is the negative
of the batch sum of the per-instance sequence log-likelihoods divided by
the batch size, where the per-instance log-likelihood is the sum of
`step_log_likelihood` over exactly `T - 1` decoding timesteps for a
target sequence of length `T` (the final target position is never
processed as a decoder input). -/
theorem C3_training_loss {Src : Type} {B L Ein H Ed V : ℕ} [NeZero V]
    (em : EncoderModules Src B L Ein H) (mods : DecoderModules V H Ed) (vi : VocabIndices)
    (source_tokens : Src) (T : ℕ) (tt : Fin B → ℕ → Fin V)
    (si : Fin B → ℕ → Fin (L - 2) → ℕ) :
    forward em mods vi source_tokens (some (T, tt)) si
      = Except.ok
          { loss := -(∑ b, ∑ t ∈ Finset.range (T - 1),
              stepLLAt mods vi (T - 1) tt si
                (fun b j => boolR (trimE ((initEncodedState em source_tokens).source_mask b) j))
                (initEncodedState em source_tokens) t b)
            / ((B : ℝ) : EReal) } := by
  show Except.ok (forwardTrain mods vi T tt si (initEncodedState em source_tokens)) = _
  rw [forwardTrain_loss mods vi T tt si (initEncodedState em source_tokens)]

/-- Witness for C3 at a concrete instance: batch size 1, source length 3,
target length 2. -/
theorem C3_training_loss_witness :
    forward witnessEncMods witnessMods witnessVI () (some (2, fun _ _ => ⟨0, Nat.one_pos⟩))
        (fun _ _ _ => 0)
      = Except.ok
          { loss := -(∑ b, ∑ t ∈ Finset.range (2 - 1),
              stepLLAt witnessMods witnessVI (2 - 1) (fun _ _ => ⟨0, Nat.one_pos⟩)
                (fun _ _ _ => 0)
                (fun b j => boolR (trimE ((initEncodedState witnessEncMods ()).source_mask b) j))
                (initEncodedState witnessEncMods ()) t b)
            / (((1 : ℕ) : ℝ) : EReal) } :=
  C3_training_loss witnessEncMods witnessMods witnessVI () 2 (fun _ _ => ⟨0, Nat.one_pos⟩)
    (fun _ _ _ => 0)

/-- C4: the selective weights returned by `_get_ll_contrib` are the
probabilities, under the shared softmax, that each source position was the
copied origin of the gold token (the masked, target-filtered copy
exponential divided by the shared normalizer); and in `_decoder_step` the
selective read is the weighted sum of the encoder output states at the
trimmed source positions `1` through `L - 2`, weighted by the selective
weights passed in from the previous timestep. -/
theorem C4_selective_read_weights {V S B L H Ed : ℕ} [NeZero V] (oov : ℕ) (gen : Vec V)
    (cs : Vec S) (t : Fin V) (src : Fin S → ℕ) (mask : Vec S)
    (hmask : ∀ j, mask j = 0 ∨ mask j = 1)
    (mods : DecoderModules V H Ed) (st : DecoderState B L H)
    (lp : Fin B → ℕ) (sw : Fin B → Fin (L - 2) → ℝ) :
    (∀ j, (getLLContrib oov gen cs t src mask).2 j
        = Real.exp (cs j) * mask j * (src j : ℝ) / specZ gen cs mask)
    ∧ ((decoderStep mods st lp sw).decoder_hidden = fun b =>
        (mods.decoder_cell
          (mods.input_projection_layer (st.decoder_hidden b)
            (mods.target_embedder (lp b))
            (weightedSum (st.encoder_outputs b)
              (mods.attention L (st.decoder_hidden b) (st.encoder_outputs b)
                (fun i => boolR (st.source_mask b i))))
            (fun k => ∑ j : Fin (L - 2), sw b j
              * st.encoder_outputs b ⟨j.val + 1, by have h2 := j.isLt; omega⟩ k))
          (st.decoder_hidden b, st.decoder_context b)).1) :=
  ⟨fun j => selectiveWeights_canonical gen cs mask src hmask (maxCat gen cs) j, rfl⟩

/-- Witness for C4 at a concrete instance. -/
theorem C4_selective_read_weights_witness :
    (∀ j : Fin 1, (fun _ : Fin 1 => (1 : ℝ)) j = 0 ∨ (fun _ : Fin 1 => (1 : ℝ)) j = 1)
    ∧ ((getLLContrib 1 (fun _ : Fin 1 => (0 : ℝ)) (fun _ : Fin 1 => (0 : ℝ))
          ⟨0, Nat.one_pos⟩ (fun _ => 1) (fun _ : Fin 1 => (1 : ℝ))).2 ⟨0, Nat.one_pos⟩
        = Real.exp 0 * 1 * ((1 : ℕ) : ℝ)
          / specZ (fun _ : Fin 1 => (0 : ℝ)) (fun _ : Fin 1 => (0 : ℝ))
              (fun _ : Fin 1 => (1 : ℝ)))
    ∧ ((decoderStep witnessMods witnessState (fun _ => 0) (fun _ _ => 0)).decoder_hidden
        = fun b =>
          (witnessMods.decoder_cell
            (witnessMods.input_projection_layer (witnessState.decoder_hidden b)
              (witnessMods.target_embedder 0)
              (weightedSum (witnessState.encoder_outputs b)
                (witnessMods.attention 3 (witnessState.decoder_hidden b)
                  (witnessState.encoder_outputs b)
                  (fun i => boolR (witnessState.source_mask b i))))
              (fun k => ∑ j : Fin (3 - 2), (0 : ℝ)
                * witnessState.encoder_outputs b ⟨j.val + 1, by have h2 := j.isLt; omega⟩ k))
            (witnessState.decoder_hidden b, witnessState.decoder_context b)).1) := by
  have h1 : ∀ j : Fin 1, (fun _ : Fin 1 => (1 : ℝ)) j = 0 ∨ (fun _ : Fin 1 => (1 : ℝ)) j = 1 :=
    fun _ => Or.inr rfl
  exact ⟨h1,
    (C4_selective_read_weights 1 (fun _ => (0 : ℝ)) (fun _ => (0 : ℝ))
      ⟨0, Nat.one_pos⟩ (fun _ => 1) (fun _ => (1 : ℝ)) h1 witnessMods witnessState
      (fun _ => 0) (fun _ _ => 0)).1 ⟨0, Nat.one_pos⟩,
    (C4_selective_read_weights 1 (fun _ => (0 : ℝ)) (fun _ => (0 : ℝ))
      ⟨0, Nat.one_pos⟩ (fun _ => 1) (fun _ => (1 : ℝ)) h1 witnessMods witnessState
      (fun _ => 0) (fun _ _ => 0)).2⟩

/-- C5: the generation-score contribution of the gold target token is
nonzero exactly when the token is not the OOV index or its source-indices
row is all zeros (the `gen_mask` of line 279); the step likelihood always
decomposes as `log(generation contribution + copy contribution) - log Z`
in `EReal`; and for a gold token that is OOV for the target vocabulary but
occurs in the source sentence, the whole probability mass comes from the
copy scores of its matching source positions. -/
theorem C5_oov_copy_mixing {V S : ℕ} [NeZero V] (oov : ℕ) (gen : Vec V) (cs : Vec S)
    (t : Fin V) (src : Fin S → ℕ) (mask : Vec S)
    (hmask : ∀ j, mask j = 0 ∨ mask j = 1) :
    ((getLLContrib oov gen cs t src mask).1
        = flog (specGenContrib oov gen t src + specCopyContrib cs src mask)
            - ((Real.log (specZ gen cs mask) : ℝ) : EReal))
    ∧ (specGenContrib oov gen t src ≠ 0 ↔ (t.val ≠ oov ∨ (∑ j, src j) = 0))
    ∧ (t.val = oov → (∑ j, src j) ≠ 0 →
        (getLLContrib oov gen cs t src mask).1
          = flog (specCopyContrib cs src mask)
              - ((Real.log (specZ gen cs mask) : ℝ) : EReal)) := by
  have hcanon : (getLLContrib oov gen cs t src mask).1
      = flog (specGenContrib oov gen t src + specCopyContrib cs src mask)
          - ((Real.log (specZ gen cs mask) : ℝ) : EReal) :=
    stepLL_canonical oov gen cs t src mask hmask (maxCat gen cs)
  refine ⟨hcanon, ?_, ?_⟩
  · constructor
    · intro hne
      by_contra hcon
      unfold specGenContrib at hne
      rw [if_neg hcon] at hne
      exact hne rfl
    · intro h
      unfold specGenContrib
      rw [if_pos h]
      exact Real.exp_ne_zero _
  · intro hoov hsum
    have hng : ¬(t.val ≠ oov ∨ (∑ j, src j) = 0) := by
      push_neg
      exact ⟨by simpa using hoov, hsum⟩
    have hzero : specGenContrib oov gen t src = 0 := by
      unfold specGenContrib
      exact if_neg hng
    rw [hcanon, hzero, zero_add]

/-- Witness for C5 at a concrete instance: the gold token is the OOV token
(index 0) and occurs at the single source position. -/
theorem C5_oov_copy_mixing_witness :
    (∀ j : Fin 1, (fun _ : Fin 1 => (1 : ℝ)) j = 0 ∨ (fun _ : Fin 1 => (1 : ℝ)) j = 1)
    ∧ ((⟨0, Nat.one_pos⟩ : Fin 1).val = 0)
    ∧ (∑ j : Fin 1, (fun _ : Fin 1 => 1) j) ≠ 0
    ∧ (getLLContrib 0 (fun _ : Fin 1 => (0 : ℝ)) (fun _ : Fin 1 => (0 : ℝ)) ⟨0, Nat.one_pos⟩
          (fun _ => 1) (fun _ : Fin 1 => (1 : ℝ))).1
      = flog (specCopyContrib (fun _ : Fin 1 => (0 : ℝ)) (fun _ => 1) (fun _ : Fin 1 => (1 : ℝ)))
          - ((Real.log (specZ (fun _ : Fin 1 => (0 : ℝ)) (fun _ : Fin 1 => (0 : ℝ))
              (fun _ : Fin 1 => (1 : ℝ))) : ℝ) : EReal) := by
  have h1 : ∀ j : Fin 1, (fun _ : Fin 1 => (1 : ℝ)) j = 0 ∨ (fun _ : Fin 1 => (1 : ℝ)) j = 1 :=
    fun _ => Or.inr rfl
  have hsum : (∑ j : Fin 1, (fun _ : Fin 1 => 1) j) ≠ 0 := by decide
  exact ⟨h1, rfl, hsum,
    (C5_oov_copy_mixing 0 (fun _ => (0 : ℝ)) (fun _ => (0 : ℝ)) ⟨0, Nat.one_pos⟩
      (fun _ => 1) (fun _ => (1 : ℝ)) h1).2.2 rfl hsum⟩

/-- C6: for every batch of source tokens, `_init_encoded_state` returns the
state whose `decoder_hidden` is the final encoder output state (selected by
`util.get_final_encoder_states` from the encoder outputs via the source
mask and the bidirectionality of the encoder), whose `decoder_context` is
the all-zeros tensor of shape `(batch_size, decoder_output_dim)`, and which
contains exactly the four entries `source_mask`, `encoder_outputs`,
`decoder_hidden`, `decoder_context`. -/
theorem C6_init_encoded_state {Src : Type} {B L Ein H : ℕ}
    (em : EncoderModules Src B L Ein H) (source_tokens : Src) :
    initEncodedState em source_tokens
      = { source_mask := em.get_text_field_mask source_tokens
          encoder_outputs := em.encoder (em.source_embedder source_tokens)
            (em.get_text_field_mask source_tokens)
          decoder_hidden := em.get_final_encoder_states
            (em.encoder (em.source_embedder source_tokens) (em.get_text_field_mask source_tokens))
            (em.get_text_field_mask source_tokens) em.is_bidirectional
          decoder_context := fun _ _ => (0 : ℝ) } := rfl

/-- C7: the decoding script loads the model archive exactly once, before
processing any input line; and for every line of the input file it writes
exactly one output line, namely the first predicted token sequence for the
newline-stripped input line joined by single spaces. -/
theorem C7_decode_script_trace (pred : String → List (List String)) (lines : List String) :
    (decodeTestTrace pred lines
        = ScriptEvent.loadArchive
            :: lines.map (fun l => ScriptEvent.write
              (String.intercalate (" ") ((pred (stripNewlines l)).headD []) ++ ("\n"))))
    ∧ (decodeTestTrace pred lines).count ScriptEvent.loadArchive = 1
    ∧ ((decodeTestTrace pred lines).filter ScriptEvent.isWrite).length = lines.length := by
  refine ⟨rfl, ?_, ?_⟩
  · have h0 : (lines.map (fun l => ScriptEvent.write (renderPrediction pred l))).count
        ScriptEvent.loadArchive = 0 := by
      rw [List.count_eq_zero]
      intro hmem
      rcases List.mem_map.mp hmem with ⟨l, _, h⟩
      exact ScriptEvent.noConfusion h
    show (ScriptEvent.loadArchive
        :: lines.map (fun l => ScriptEvent.write (renderPrediction pred l))).count
      ScriptEvent.loadArchive = 1
    rw [List.count_cons_self, h0]
  · have hf : (lines.map (fun l => ScriptEvent.write (renderPrediction pred l))).filter
        ScriptEvent.isWrite = lines.map (fun l => ScriptEvent.write (renderPrediction pred l)) := by
      rw [List.filter_eq_self]
      intro e he
      rcases List.mem_map.mp he with ⟨l, _, rfl⟩
      rfl
    show ((ScriptEvent.loadArchive
        :: lines.map (fun l => ScriptEvent.write (renderPrediction pred l))).filter
      ScriptEvent.isWrite).length = lines.length
    rw [List.filter_cons_of_neg, hf, List.length_map]
    simp [ScriptEvent.isWrite]

/-- C8: copy scores are computed only from the trimmed encoder outputs
(trimmed index `j` reads padded position `j + 1`); the copy side of the
shared softmax distributes all of its mass over padded positions `1`
through `L - 2`, so the padded position `0` (the source start token) and
the padded position `L - 1` (the source end token of a full-length
instance) always carry zero mass; and for an instance of true length
`len < L` (with `2 ≤ len`) the end token at padded position `len - 1`
lies inside the trimmed range, its copy-mask entry is `1`, and it carries
the unmasked copy exponential of trimmed index `len - 2`. -/
theorem C8_trimmed_copy_scores {L : ℕ} (cs : Vec (L - 2)) (sourceMask : Fin L → Bool)
    (c : ℝ) :
    (∀ (B H Ed V : ℕ) (mods : DecoderModules V H Ed) (st : DecoderState B L H)
        (b : Fin B) (j : Fin (L - 2)),
        getCopyScores mods st b j
          = ∑ k, Real.tanh (mods.output_copying_layer
              (st.encoder_outputs b ⟨j.val + 1, by have h2 := j.isLt; omega⟩) k)
            * st.decoder_hidden b k)
    ∧ ((∑ j, stableCopyExpScores cs (fun j2 => boolR (trimE sourceMask j2)) c j)
        = ∑ p, copyMassAt cs sourceMask c p)
    ∧ (∀ p : Fin L, p.val = 0 ∨ p.val + 1 = L → copyMassAt cs sourceMask c p = 0)
    ∧ (∀ len : ℕ, 2 ≤ len → len + 1 ≤ L → ∀ (hp : len - 1 < L) (hj : len - 2 < L - 2),
        boolR (trimE (lengthMask L len) ⟨len - 2, hj⟩) = 1
        ∧ copyMassAt cs (lengthMask L len) c ⟨len - 1, hp⟩
            = Real.exp (cs ⟨len - 2, hj⟩ - c)) := by
  refine ⟨fun B H Ed V mods st b j => rfl, ?_, ?_, ?_⟩
  · unfold copyMassAt
    rw [Finset.sum_comm]
    refine Finset.sum_congr rfl (fun j _ => ?_)
    have hb : j.val + 1 < L := by have h2 := j.isLt; omega
    have hrw : ∑ p : Fin L, (if p.val = j.val + 1
          then stableCopyExpScores cs (fun j2 => boolR (trimE sourceMask j2)) c j else 0)
        = ∑ p : Fin L, (if p = (⟨j.val + 1, hb⟩ : Fin L)
          then stableCopyExpScores cs (fun j2 => boolR (trimE sourceMask j2)) c j else 0) :=
      Finset.sum_congr rfl (fun p _ => by rw [if_congr (Fin.ext_iff (b := ⟨j.val + 1, hb⟩)) rfl rfl])
    rw [hrw, Finset.sum_ite_eq' Finset.univ (⟨j.val + 1, hb⟩ : Fin L), if_pos (Finset.mem_univ _)]
  · intro p hp
    refine Finset.sum_eq_zero (fun j _ => ?_)
    have hjlt := j.isLt
    rcases hp with h | h
    · exact if_neg (by omega)
    · exact if_neg (by omega)
  · intro len h2 hL hp hj
    have hmaskone : boolR (trimE (lengthMask L len) ⟨len - 2, hj⟩) = 1 := by
      have hlt : len - 2 + 1 < len := by omega
      simp [trimE, lengthMask, boolR, hlt]
    refine ⟨hmaskone, ?_⟩
    unfold copyMassAt
    have hcond : ∀ j : Fin (L - 2),
        ((⟨len - 1, hp⟩ : Fin L).val = j.val + 1) ↔ (j = (⟨len - 2, hj⟩ : Fin (L - 2))) := by
      intro j
      constructor
      · intro h
        apply Fin.ext
        have h' : len - 1 = j.val + 1 := h
        show j.val = len - 2
        omega
      · intro h
        subst h
        show len - 1 = len - 2 + 1
        omega
    have hrw : ∑ j : Fin (L - 2), (if (⟨len - 1, hp⟩ : Fin L).val = j.val + 1
          then stableCopyExpScores cs (fun j2 => boolR (trimE (lengthMask L len) j2)) c j else 0)
        = ∑ j : Fin (L - 2), (if j = (⟨len - 2, hj⟩ : Fin (L - 2))
          then stableCopyExpScores cs (fun j2 => boolR (trimE (lengthMask L len) j2)) c j
          else 0) :=
      Finset.sum_congr rfl (fun j _ => by rw [if_congr (hcond j) rfl rfl])
    rw [hrw, Finset.sum_ite_eq' Finset.univ (⟨len - 2, hj⟩ : Fin (L - 2)),
      if_pos (Finset.mem_univ _)]
    show Real.exp (cs ⟨len - 2, hj⟩ - c) * boolR (trimE (lengthMask L len) ⟨len - 2, hj⟩)
      = Real.exp (cs ⟨len - 2, hj⟩ - c)
    rw [hmaskone, mul_one]

/-- Witness for C8 at a concrete instance: `L = 3`, an instance of true
length `2`. -/
theorem C8_trimmed_copy_scores_witness :
    (getCopyScores witnessMods witnessState 0 ⟨0, Nat.one_pos⟩
        = ∑ k, Real.tanh (witnessMods.output_copying_layer
            (witnessState.encoder_outputs 0 ⟨1, by omega⟩) k)
          * witnessState.decoder_hidden 0 k)
    ∧ ((∑ j, stableCopyExpScores (fun _ : Fin (3 - 2) => (0 : ℝ))
          (fun j2 => boolR (trimE (fun _ : Fin 3 => true) j2)) 0 j)
        = ∑ p, copyMassAt (fun _ : Fin (3 - 2) => (0 : ℝ)) (fun _ : Fin 3 => true) 0 p)
    ∧ (copyMassAt (fun _ : Fin (3 - 2) => (0 : ℝ)) (fun _ : Fin 3 => true) 0 ⟨0, by omega⟩ = 0)
    ∧ (copyMassAt (fun _ : Fin (3 - 2) => (0 : ℝ)) (fun _ : Fin 3 => true) 0 ⟨2, by omega⟩ = 0)
    ∧ (boolR (trimE (lengthMask 3 2) ⟨0, by omega⟩) = 1)
    ∧ (copyMassAt (fun _ : Fin (3 - 2) => (0 : ℝ)) (lengthMask 3 2) 0 ⟨1, by omega⟩
        = Real.exp ((fun _ : Fin (3 - 2) => (0 : ℝ)) ⟨0, by omega⟩ - 0)) := by
  refine ⟨(C8_trimmed_copy_scores (fun _ => (0 : ℝ)) (fun _ => true) 0).1
      1 1 1 1 witnessMods witnessState 0 ⟨0, Nat.one_pos⟩,
    (C8_trimmed_copy_scores (fun _ => (0 : ℝ)) (fun _ => true) 0).2.1,
    (C8_trimmed_copy_scores (fun _ => (0 : ℝ)) (fun _ => true) 0).2.2.1 ⟨0, by omega⟩
      (Or.inl rfl),
    (C8_trimmed_copy_scores (fun _ => (0 : ℝ)) (fun _ => true) 0).2.2.1 ⟨2, by omega⟩
      (Or.inr rfl),
    ((C8_trimmed_copy_scores (fun _ => (0 : ℝ)) (lengthMask 3 2) 0).2.2.2 2
      (by norm_num) (by norm_num) (by omega) (by omega)).1,
    ((C8_trimmed_copy_scores (fun _ => (0 : ℝ)) (lengthMask 3 2) 0).2.2.2 2
      (by norm_num) (by norm_num) (by omega) (by omega)).2⟩

/-- C9: calling `forward` without `target_tokens` always raises
`NotImplementedError`, calling `decode` always raises
`NotImplementedError`, and the only implemented public path is the
training path returning the loss dictionary. -/
theorem C9_unimplemented_paths {Src : Type} {B L Ein H Ed V : ℕ} [NeZero V]
    (em : EncoderModules Src B L Ein H) (mods : DecoderModules V H Ed) (vi : VocabIndices)
    (source_tokens : Src) (si : Fin B → ℕ → Fin (L - 2) → ℕ) (d : TrainOutput) :
    forward em mods vi source_tokens none si = Except.error PyError.notImplementedError
    ∧ decode d = Except.error PyError.notImplementedError
    ∧ ∀ (T : ℕ) (tt : Fin B → ℕ → Fin V),
        forward em mods vi source_tokens (some (T, tt)) si
          = Except.ok (forwardTrain mods vi T tt si (initEncodedState em source_tokens)) :=
  ⟨rfl, rfl, fun _ _ => rfl⟩

/-- Witness for C9 at a concrete instance. -/
theorem C9_unimplemented_paths_witness :
    forward witnessEncMods witnessMods witnessVI () none (fun _ _ _ => 0)
        = Except.error PyError.notImplementedError
    ∧ decode { loss := 0 } = Except.error PyError.notImplementedError
    ∧ forward witnessEncMods witnessMods witnessVI () (some (2, fun _ _ => ⟨0, Nat.one_pos⟩))
          (fun _ _ _ => 0)
        = Except.ok (forwardTrain witnessMods witnessVI 2 (fun _ _ => ⟨0, Nat.one_pos⟩)
            (fun _ _ _ => 0) (initEncodedState witnessEncMods ())) :=
  ⟨(C9_unimplemented_paths witnessEncMods witnessMods witnessVI () (fun _ _ _ => 0)
      { loss := 0 }).1,
   (C9_unimplemented_paths witnessEncMods witnessMods witnessVI () (fun _ _ _ => 0)
      { loss := 0 }).2.1,
   (C9_unimplemented_paths witnessEncMods witnessMods witnessVI () (fun _ _ _ => 0)
      { loss := 0 }).2.2 2 (fun _ _ => ⟨0, Nat.one_pos⟩)⟩

/-- C10: the selective weights entering the first decoding timestep of
`_forward_train` are all zeros, the first decoder step is taken with
exactly those zero weights, and a selective read with zero weights is the
zero vector for every instance of the batch. -/
theorem C10_first_selective_read_zero {B L H Ed V : ℕ} [NeZero V]
    (mods : DecoderModules V H Ed) (vi : VocabIndices) (numSteps : ℕ)
    (tt : Fin B → ℕ → Fin V) (si : Fin B → ℕ → Fin (L - 2) → ℕ)
    (copy_mask : Fin B → Fin (L - 2) → ℝ) (st0 : DecoderState B L H) :
    (trainStatesAux mods vi numSteps tt si copy_mask st0 0).2 = (fun _ _ => (0 : ℝ))
    ∧ (trainStatesAux mods vi numSteps tt si copy_mask st0 1).1
        = (trainBody mods vi numSteps tt si copy_mask 0 st0 (fun _ _ => 0)).1
    ∧ ∀ (st : DecoderState B L H) (b : Fin B),
        weightedSum (trimE (st.encoder_outputs b)) (fun _ => (0 : ℝ)) = fun _ => (0 : ℝ) := by
  refine ⟨rfl, rfl, fun st b => ?_⟩
  funext k
  simp [weightedSum]

/-- Witness for C10 at a concrete instance. -/
theorem C10_first_selective_read_zero_witness :
    (trainStatesAux witnessMods witnessVI 1 (fun _ _ => ⟨0, Nat.one_pos⟩) (fun _ _ _ => 0)
        (fun _ _ => 1) witnessState 0).2 = (fun _ _ => (0 : ℝ))
    ∧ (trainStatesAux witnessMods witnessVI 1 (fun _ _ => ⟨0, Nat.one_pos⟩) (fun _ _ _ => 0)
          (fun _ _ => 1) witnessState 1).1
        = (trainBody witnessMods witnessVI 1 (fun _ _ => ⟨0, Nat.one_pos⟩) (fun _ _ _ => 0)
            (fun _ _ => 1) 0 witnessState (fun _ _ => 0)).1
    ∧ weightedSum (trimE (witnessState.encoder_outputs 0)) (fun _ => (0 : ℝ))
        = fun _ => (0 : ℝ) :=
  ⟨(C10_first_selective_read_zero witnessMods witnessVI 1 (fun _ _ => ⟨0, Nat.one_pos⟩)
      (fun _ _ _ => 0) (fun _ _ => 1) witnessState).1,
   (C10_first_selective_read_zero witnessMods witnessVI 1 (fun _ _ => ⟨0, Nat.one_pos⟩)
      (fun _ _ _ => 0) (fun _ _ => 1) witnessState).2.1,
   (C10_first_selective_read_zero witnessMods witnessVI 1 (fun _ _ => ⟨0, Nat.one_pos⟩)
      (fun _ _ _ => 0) (fun _ _ => 1) witnessState).2.2 witnessState 0⟩

end CopyNetModel
